import Mathlib

/-!
Verification of the OpStream RAG engine core.

Shallow embedding of `src/backend/rag/engine.py` (class `RAGEngine`) and the
re-indexing flow of `src/backend/main.py` (`index_repository`).

Modelling conventions:

* Qdrant payloads are Python dicts with string keys and scalar values; they
  are modelled as association lists `List (String × PVal)` with distinct keys,
  where `PVal` covers the scalar payload values the engine stores or passes
  through opaquely.
* The embedding model (`SentenceTransformer.encode`) and the cosine
  similarity computed by Qdrant are external, deterministic capabilities; we
  abstract them as an environment `Env V` carrying `embed : String → V` and
  `sim : V → V → ℚ` (similarity scores are modelled as rationals; the engine
  only compares and assigns them).  `embed_batch` on sentence-transformers is
  order-preserving, i.e. a `List.map` of `embed`.
* The Groq chat-completion call inside `_generate_hyde_document` is abstracted
  as `gen : String → Option String`: `some answer` for a 200 response with a
  parseable body, `none` for every failure mode (non-ok status, exception,
  timeout) — all of which the source collapses into falling through to
  `return query`.
* Qdrant's `search` returns the filtered points sorted by descending score
  (ties kept in a fixed stable order), truncated to `limit`.  Point ids are
  fresh `uuid4` strings and are never reused, so `upsert` never overwrites an
  existing point; it is modelled as list append, and ids are omitted from the
  point model (nothing in the engine reads them back).
* `client.scroll(limit=1000)` returns at most the first 1000 stored points and
  the source never paginates; modelled as `List.take 1000` of the store.
-/

namespace OpStream

/-- A scalar Qdrant payload value.  The engine treats payload values opaquely
(equality matching and pass-through only), so two constructors suffice to
model the open set of scalar values. -/
inductive PVal where
  | str (s : String)
  | num (n : Int)
deriving DecidableEq, Repr

/-- Python dict lookup d.get(k), on a dict modelled as an association list. -/
def payloadGet (payload : List (String × PVal)) (k : String) : Option PVal :=
  (payload.find? (fun kv => kv.1 = k)).map (fun kv => kv.2)

/-- Python dict assignment d[k] = v: replace the value if the key is present,
otherwise append the new key at the end (Python dicts preserve insertion
order). -/
def dictInsert (payload : List (String × PVal)) (k : String) (v : PVal) :
    List (String × PVal) :=
  if payload.any (fun kv => kv.1 = k) then
    payload.map (fun kv => if kv.1 = k then (k, v) else kv)
  else
    payload ++ [(k, v)]

/-- A stored Qdrant point: embedding vector plus payload
(`engine.py` `PointStruct`; the fresh `uuid4` id is omitted, see header). -/
structure Point (V : Type) where
  vector : V
  payload : List (String × PVal)
deriving DecidableEq, Repr

/-- The state of the `repo_docs` Qdrant collection, in insertion order. -/
abbrev Store (V : Type) := List (Point V)

/-- An input document handed to `index_documents`: a Python dict with a
required `content` key, an optional `type` key (doc.get of key type, default unknown)
and an optional `metadata` dict, defaulting to empty. -/
structure Doc where
  content : String
  type : Option String
  metadata : List (String × PVal)
deriving DecidableEq, Repr

/-- The external capabilities `RAGEngine` is configured with. -/
structure Env (V : Type) where
  embed : String → V
  sim : V → V → ℚ
  gen : String → Option String
  groq_key : Option String

/-- One result dict produced by `RAGEngine.search`.  The Python dict has no
`is_parent` key until `search_with_context` sets it; the absent key is
modelled as `is_parent = false`. -/
structure SearchResult where
  content : PVal
  type : PVal
  score : ℚ
  metadata : List (String × PVal)
  is_parent : Bool
deriving DecidableEq, Repr

/-- The payload built in `index_documents`:
a dict literal of the three reserved keys followed by the splatted metadata dict.
Note the metadata splat comes last, so a metadata key equal to one of the
three reserved keys overrides the stamped value. -/
def mkPayload (repo_name : String) (d : Doc) : List (String × PVal) :=
  d.metadata.foldl (fun acc kv => dictInsert acc kv.1 kv.2)
    [("repo_name", PVal.str repo_name),
     ("content", PVal.str d.content),
     ("doc_type", PVal.str (d.type.getD "unknown"))]

/-- The point built for one document in `index_documents`. -/
def mkPoint {V : Type} (env : Env V) (repo_name : String) (d : Doc) : Point V :=
  { vector := env.embed d.content, payload := mkPayload repo_name d }

/-- Model of `RAGEngine.index_documents`: embed all contents in one batch, build a
point per document, upsert.  Returns the updated store and the count. -/
def index_documents {V : Type} (env : Env V) (st : Store V) (repo_name : String)
    (documents : List Doc) : Store V × ℕ :=
  if documents.isEmpty then (st, 0)
  else
    let points := documents.map (fun d => mkPoint env repo_name d)
    (st ++ points, points.length)

/-- Model of the fixed instruction template `_generate_hyde_document` sends
to the external generator. -/
def hydePrompt (query : String) : String :=
  "Given this question about a GitHub repository, write a short paragraph (2-3 sentences) that would be a good answer. Be specific and technical.\n\nQuestion: " ++ query ++ "\n\nAnswer:"

/-- Model of `RAGEngine._generate_hyde_document`: returns the generated answer
(`.strip()`-ped) when a key is configured and the generator succeeds, and the
original query on a missing/empty key or any generator failure. -/
def generate_hyde_document {V : Type} (env : Env V) (query : String) : String :=
  match env.groq_key with
  | none => query
  | some k =>
    if k.isEmpty then query
    else
      match env.gen (hydePrompt query) with
      | some answer => answer.trim
      | none => query

/-- The filter conditions of `RAGEngine.search`: equality on `repo_name`
and/or `doc_type` when those arguments are truthy (Python `if repo_name:`
skips both `None` and the empty string). -/
def filterConds (repo_name doc_type : Option String) : List (String × String) :=
  (match repo_name with
   | none => []
   | some r => if r.isEmpty then [] else [("repo_name", r)]) ++
  (match doc_type with
   | none => []
   | some t => if t.isEmpty then [] else [("doc_type", t)])

/-- A point passes a Qdrant `Filter(must=conds)` iff every condition's payload
field equals the given string value. -/
def matchesConds (conds : List (String × String)) (payload : List (String × PVal)) : Bool :=
  conds.all (fun c => decide (payloadGet payload c.1 = some (PVal.str c.2)))

/-- Insert a scored point into a list sorted by strictly descending-or-equal
score, keeping it after every already-present point of ≥ score (stable). -/
def insertDesc {V : Type} (x : Point V × ℚ) : List (Point V × ℚ) → List (Point V × ℚ)
  | [] => [x]
  | y :: ys => if y.2 < x.2 then x :: y :: ys else y :: insertDesc x ys

/-- Stable sort by descending score. -/
def sortDesc {V : Type} (l : List (Point V × ℚ)) : List (Point V × ℚ) :=
  l.foldl (fun acc x => insertDesc x acc) []

/-- Qdrant `client.search`: score every point passing the filter against the
query vector, sort by descending score, truncate to `limit`. -/
def qdrantSearch {V : Type} (env : Env V) (st : Store V) (qv : V)
    (conds : List (String × String)) (limit : ℕ) : List (Point V × ℚ) :=
  (sortDesc ((st.filter (fun p => matchesConds conds p.payload)).map
    (fun p => (p, env.sim qv p.vector)))).take limit

/-- The result dict built from one Qdrant hit in `RAGEngine.search`:
`content` and `doc_type` are read with defaults, and `metadata` is every
payload entry whose key is not one of the three reserved keys. -/
def formatHit {V : Type} (hp : Point V × ℚ) : SearchResult :=
  { content := (payloadGet hp.1.payload "content").getD (PVal.str "")
    type := (payloadGet hp.1.payload "doc_type").getD (PVal.str "unknown")
    score := hp.2
    metadata := hp.1.payload.filter
      (fun kv => decide (kv.1 ≠ "content" ∧ kv.1 ≠ "doc_type" ∧ kv.1 ≠ "repo_name"))
    is_parent := false }

/-- Model of `RAGEngine.search`, instrumented: returns the list of texts passed to
`embed_text`, the number of vector-store similarity searches issued, and the
result list.  The body performs exactly one embedding and one store search. -/
def search_run {V : Type} (env : Env V) (st : Store V) (query : String)
    (repo_name : Option String) (top_k : ℕ) (doc_type : Option String)
    (use_hyde : Bool) : List String × ℕ × List SearchResult :=
  let search_text :=
    if use_hyde && decide (query.length > 20) then generate_hyde_document env query
    else query
  let query_embedding := env.embed search_text
  let conds := filterConds repo_name doc_type
  let hits := qdrantSearch env st query_embedding conds top_k
  ([search_text], 1, hits.map formatHit)

/-- Model of `RAGEngine.search`: the result list of `search_run`. -/
def search {V : Type} (env : Env V) (st : Store V) (query : String)
    (repo_name : Option String) (top_k : ℕ) (doc_type : Option String)
    (use_hyde : Bool) : List SearchResult :=
  (search_run env st query repo_name top_k doc_type use_hyde).2.2

/-- Model of `RAGEngine.search_with_context`: section search with HyDE, then — if any
section hit has type `readme` — fetch one `readme_full` document with a fixed
generic query and append it with score `0.5` and `is_parent` set. -/
def search_with_context {V : Type} (env : Env V) (st : Store V) (query : String)
    (repo_name : String) (top_k : ℕ) : List SearchResult :=
  let section_results := search env st query (some repo_name) top_k none true
  let has_readme_section :=
    section_results.any (fun r => decide (r.type = PVal.str "readme"))
  if has_readme_section then
    match search env st "full readme overview" (some repo_name) 1
        (some "readme_full") false with
    | [] => section_results
    | fr :: _ =>
      section_results ++ [{ fr with score := mkRat 1 2, is_parent := true }]
  else section_results

/-- Model of `RAGEngine.delete_repo`: remove every point whose `repo_name` payload
field equals the argument; always returns `True`. -/
def delete_repo {V : Type} (st : Store V) (repo_name : String) : Store V × Bool :=
  (st.filter (fun p => !(decide (payloadGet p.payload "repo_name" = some (PVal.str repo_name)))),
   true)

/-- The loop body of `RAGEngine.get_indexed_repos`: skip points without a
`repo_name` payload field, collect each value once. -/
def reposStep {V : Type} (acc : List PVal) (p : Point V) : List PVal :=
  match payloadGet p.payload "repo_name" with
  | some v => if v ∈ acc then acc else acc ++ [v]
  | none => acc

/-- Model of `RAGEngine.get_indexed_repos`: scroll at most 1000 points (the source
never paginates), collect each present `repo_name` payload value once.  The
Python `set` is modelled as first-occurrence deduplication. -/
def get_indexed_repos {V : Type} (st : Store V) : List PVal :=
  (st.take 1000).foldl reposStep []

/-- The re-index flow of `index_repository` in `src/backend/main.py`: reject
an empty document batch (HTTP 400, modelled as `none`), otherwise
`delete_repo` then `index_documents`. -/
def index_repository {V : Type} (env : Env V) (st : Store V) (repo_name : String)
    (documents : List Doc) : Option (Store V × ℕ) :=
  if documents.isEmpty then none
  else some (index_documents env (delete_repo st repo_name).1 repo_name documents)

/-! ## Concrete instances for executable checks

Vectors are the texts themselves (`embed` is the identity) and similarity is
a lookup on the stored text, so searches evaluate by `decide`. -/

def cEnvLow : Env String :=
  { embed := fun s => s
    sim := fun _ d =>
      if d = "InstallSec" then mkRat 3 10
      else if d = "FullReadme" then mkRat 9 10 else mkRat 0 1
    gen := fun _ => none
    groq_key := none }

def cEnvHigh : Env String :=
  { embed := fun s => s
    sim := fun _ d =>
      if d = "InstallSec" then mkRat 9 10
      else if d = "FullReadme" then mkRat 7 10 else mkRat 0 1
    gen := fun _ => none
    groq_key := none }

def cEnvPlain : Env String :=
  { embed := fun s => s
    sim := fun _ _ => mkRat 0 1
    gen := fun _ => none
    groq_key := some "k" }

def dSec : Doc :=
  { content := "InstallSec", type := some "readme"
    metadata := [("section_title", PVal.str "Setup")] }

def dFull : Doc :=
  { content := "FullReadme", type := some "readme_full", metadata := [] }

/-- A document whose metadata overrides the reserved `repo_name` key. -/
def dOvr : Doc :=
  { content := "c1", type := some "readme"
    metadata := [("repo_name", PVal.str "B")] }

def dNew : Doc := { content := "NewDoc", type := some "readme", metadata := [] }

def cStore : Store String := (index_documents cEnvLow [] "x/y" [dSec, dFull]).1

def leakStore : Store String := (index_documents cEnvPlain [] "A" [dOvr]).1

def st1C4 : Store String :=
  (index_documents cEnvPlain (delete_repo [] "R").1 "R" [dSec, dFull]).1

def st2C4 : Store String :=
  (index_documents cEnvPlain (delete_repo st1C4 "R").1 "R" [dOvr]).1

def st2W : Store String :=
  (index_documents cEnvPlain (delete_repo st1C4 "R").1 "R" [dNew]).1

/-- The readme-section result as returned over `cStore`. -/
def rInstall : SearchResult :=
  { content := PVal.str "InstallSec", type := PVal.str "readme"
    score := mkRat 3 10, metadata := [("section_title", PVal.str "Setup")]
    is_parent := false }

/-- The appended parent result as returned over `cStore`. -/
def pParent : SearchResult :=
  { content := PVal.str "FullReadme", type := PVal.str "readme_full"
    score := mkRat 1 2, metadata := [], is_parent := true }

def pA : Point ℕ := { vector := 0, payload := [("repo_name", PVal.str "A")] }

def pB : Point ℕ := { vector := 0, payload := [("repo_name", PVal.str "B")] }

/-- A store of 1001 points: 1000 under repository "A", then one under "B". -/
def bigStore : Store ℕ := List.replicate 1000 pA ++ [pB]

/-! ## General lemmas about the model -/

theorem mem_insertDesc {V : Type} (x y : Point V × ℚ) :
    ∀ l : List (Point V × ℚ), x ∈ insertDesc y l ↔ x = y ∨ x ∈ l
  | [] => by simp [insertDesc]
  | z :: zs => by
    by_cases h : z.2 < y.2
    · simp [insertDesc, h]
    · simp [insertDesc, h, mem_insertDesc x y zs]
      tauto

theorem mem_foldl_insertDesc {V : Type} (x : Point V × ℚ) :
    ∀ (l acc : List (Point V × ℚ)),
      x ∈ l.foldl (fun acc y => insertDesc y acc) acc ↔ x ∈ l ∨ x ∈ acc
  | [], acc => by simp
  | z :: zs, acc => by
    rw [List.foldl_cons, mem_foldl_insertDesc x zs, mem_insertDesc]
    simp
    tauto

theorem mem_sortDesc {V : Type} (x : Point V × ℚ) (l : List (Point V × ℚ)) :
    x ∈ sortDesc l ↔ x ∈ l := by
  rw [sortDesc, mem_foldl_insertDesc]
  simp

/-- Every hit of the modelled Qdrant search is a stored point that passes the
filter, scored against the query vector. -/
theorem mem_qdrantSearch {V : Type} {env : Env V} {st : Store V} {qv : V}
    {conds : List (String × String)} {limit : ℕ} {hp : Point V × ℚ}
    (h : hp ∈ qdrantSearch env st qv conds limit) :
    hp.1 ∈ st ∧ matchesConds conds hp.1.payload = true ∧
      hp.2 = env.sim qv hp.1.vector := by
  have h1 := List.mem_of_mem_take h
  rw [mem_sortDesc, List.mem_map] at h1
  obtain ⟨p, hp1, hp2⟩ := h1
  rw [List.mem_filter] at hp1
  subst hp2
  exact ⟨hp1.1, hp1.2, rfl⟩

/-- Every result of `search` is the formatting of a stored point that passes
the filter conditions. -/
theorem search_result_source {V : Type} {env : Env V} {st : Store V} {q : String}
    {rn : Option String} {tk : ℕ} {dt : Option String} {uh : Bool}
    {r : SearchResult} (h : r ∈ search env st q rn tk dt uh) :
    ∃ p, p ∈ st ∧ matchesConds (filterConds rn dt) p.payload = true ∧
      ∃ s, r = formatHit (p, s) := by
  rw [search, search_run, List.mem_map] at h
  obtain ⟨hp, hmem, hfmt⟩ := h
  obtain ⟨h1, h2, h3⟩ := mem_qdrantSearch hmem
  exact ⟨hp.1, h1, h2, hp.2, by rw [← hfmt]⟩

/-- `search` never sets the `is_parent` flag. -/
theorem search_is_parent_false {V : Type} {env : Env V} {st : Store V}
    {q : String} {rn : Option String} {tk : ℕ} {dt : Option String} {uh : Bool}
    {r : SearchResult} (h : r ∈ search env st q rn tk dt uh) :
    r.is_parent = false := by
  obtain ⟨p, -, -, s, hr⟩ := search_result_source h
  rw [hr]; rfl

/-- A payload passing `matchesConds` satisfies each individual condition. -/
theorem matchesConds_elim {conds : List (String × String)}
    {payload : List (String × PVal)} (h : matchesConds conds payload = true)
    {c : String × String} (hc : c ∈ conds) :
    payloadGet payload c.1 = some (PVal.str c.2) := by
  rw [matchesConds, List.all_eq_true] at h
  simpa using h c hc

/-- A result returned under a non-empty `doc_type` filter has that type. -/
theorem search_doc_type {V : Type} {env : Env V} {st : Store V} {q : String}
    {rn : Option String} {tk : ℕ} {t : String} {uh : Bool} {r : SearchResult}
    (h : r ∈ search env st q rn tk (some t) uh) (ht : t.isEmpty = false) :
    r.type = PVal.str t := by
  obtain ⟨p, -, hm, s, hr⟩ := search_result_source h
  have hc : ("doc_type", t) ∈ filterConds rn (some t) := by
    rw [filterConds.eq_def]
    refine List.mem_append_right _ ?_
    simp [ht]
  have := matchesConds_elim hm hc
  rw [hr, formatHit]
  simp_all

theorem payloadGet_cons (kv : String × PVal) (l : List (String × PVal)) (k : String) :
    payloadGet (kv :: l) k = if kv.1 = k then some kv.2 else payloadGet l k := by
  by_cases h : kv.1 = k <;> simp [payloadGet, List.find?_cons, h]

theorem payloadGet_map_override (l : List (String × PVal)) (k k' : String)
    (v : PVal) (h : k' ≠ k) :
    payloadGet (l.map (fun kv => if kv.1 = k' then (k', v) else kv)) k =
      payloadGet l k := by
  induction l with
  | nil => rfl
  | cons kv rest ih =>
    have hk2 : kv.1 = k' → ¬(kv.1 = k) := fun he => he ▸ h
    by_cases hk : kv.1 = k'
    · simp [hk, payloadGet_cons, h, hk2 hk, ih]
    · simp [hk, payloadGet_cons, ih]

theorem payloadGet_append_single (l : List (String × PVal)) (k k' : String)
    (v : PVal) (h : k' ≠ k) : payloadGet (l ++ [(k', v)]) k = payloadGet l k := by
  induction l with
  | nil => simp [payloadGet, List.find?_cons, h]
  | cons kv rest ih => simp [payloadGet_cons, ih]

/-- Writing one key of a Python dict leaves every other key's value alone. -/
theorem payloadGet_dictInsert_ne {l : List (String × PVal)} {k k' : String}
    {v : PVal} (h : k' ≠ k) : payloadGet (dictInsert l k' v) k = payloadGet l k := by
  rw [dictInsert]
  split
  · exact payloadGet_map_override l k k' v h
  · exact payloadGet_append_single l k k' v h

theorem payloadGet_foldl_dictInsert {k : String} :
    ∀ (meta acc : List (String × PVal)), (∀ kv ∈ meta, kv.1 ≠ k) →
      payloadGet (meta.foldl (fun acc kv => dictInsert acc kv.1 kv.2) acc) k =
        payloadGet acc k
  | [], _, _ => rfl
  | kv :: rest, acc, h => by
    rw [List.foldl_cons,
      payloadGet_foldl_dictInsert rest _
        (fun kv2 h2 => h kv2 (List.mem_cons_of_mem _ h2)),
      payloadGet_dictInsert_ne (h kv (List.mem_cons_self _ _))]

/-- If the metadata of a document does not use the key `repo_name`, the payload
built by `index_documents` is stamped with the indexing repository. -/
theorem payloadGet_mkPayload_repo {R : String} {d : Doc}
    (h : ∀ kv ∈ d.metadata, kv.1 ≠ "repo_name") :
    payloadGet (mkPayload R d) "repo_name" = some (PVal.str R) := by
  rw [mkPayload, payloadGet_foldl_dictInsert d.metadata _ h]
  rfl

/-- No point surviving `delete_repo R` still carries `repo_name = R`. -/
theorem filter_repo_delete_nil {V : Type} (st : Store V) (R : String) :
    (delete_repo st R).1.filter
      (fun p => decide (payloadGet p.payload "repo_name" = some (PVal.str R))) = [] := by
  rw [List.filter_eq_nil_iff]
  intro p hp
  rw [delete_repo] at hp
  rw [List.mem_filter] at hp
  simpa using hp.2

/-- A point freshly indexed under `R` fails the filter of a search scoped to a
different, non-empty `R'` (provided the metadata of the document does not
override `repo_name`). -/
theorem matchesConds_new_point_false {V : Type} {env : Env V} {R R' : String}
    {dt : Option String} {d : Doc} (hmeta : ∀ kv ∈ d.metadata, kv.1 ≠ "repo_name")
    (hR' : R'.isEmpty = false) (hne : R ≠ R') :
    matchesConds (filterConds (some R') dt) (mkPoint env R d).payload = false := by
  have hcmem : ("repo_name", R') ∈ filterConds (some R') dt := by
    rw [filterConds.eq_def]
    refine List.mem_append_left _ ?_
    simp [hR']
  rw [← Bool.not_eq_true, matchesConds, List.all_eq_true]
  intro hall
  have := hall _ hcmem
  rw [mkPoint] at this
  simp only [payloadGet_mkPayload_repo hmeta] at this
  simp at this
  exact hne this

/-! ## Claim theorems -/

/-- C10: indexing an empty document list returns 0 and leaves the store
completely unchanged. -/
theorem index_documents_empty_noop {V : Type} (env : Env V) (st : Store V)
    (R : String) : index_documents env st R [] = (st, 0) := rfl

/-- C8: `delete_repo` is idempotent — a second call with the same name
returns the same store (and still reports success), and no document with that
`repo_name` survives the first call. -/
theorem delete_repo_idempotent {V : Type} (st : Store V) (R : String) :
    delete_repo (delete_repo st R).1 R = delete_repo st R ∧
    (∀ p ∈ (delete_repo st R).1,
      ¬payloadGet p.payload "repo_name" = some (PVal.str R)) ∧
    (delete_repo (delete_repo st R).1 R).2 = true := by
  refine ⟨?_, ?_, rfl⟩
  · rw [delete_repo, delete_repo]
    refine Prod.ext ?_ rfl
    exact List.filter_eq_self.mpr (fun p hp => (List.mem_filter.mp hp).2)
  · intro p hp
    rw [delete_repo] at hp
    rw [List.mem_filter] at hp
    simpa using hp.2

/-- C6: one `search` call embeds exactly one text — the HyDE document iff
`use_hyde` is set and the query is longer than 20 characters, the raw query
otherwise — and issues exactly one similarity search, over that single
embedding. -/
theorem search_single_embedding {V : Type} (env : Env V) (st : Store V)
    (q : String) (rn : Option String) (tk : ℕ) (dt : Option String) (uh : Bool) :
    (search_run env st q rn tk dt uh).1 =
        [if uh && decide (q.length > 20) then generate_hyde_document env q else q] ∧
    (search_run env st q rn tk dt uh).1.length = 1 ∧
    (search_run env st q rn tk dt uh).2.1 = 1 ∧
    (search_run env st q rn tk dt uh).2.2 =
      (qdrantSearch env st
        (env.embed
          (if uh && decide (q.length > 20) then generate_hyde_document env q else q))
        (filterConds rn dt) tk).map formatHit :=
  ⟨rfl, rfl, rfl, rfl⟩

/-- C3: when the answer generator fails (missing or empty credential, or a
failed generation call — non-OK response, exception or timeout), a search
with `use_hyde = True` returns exactly the results of the plain search; the
failure never surfaces. -/
theorem hyde_failure_fallback {V : Type} (env : Env V) (st : Store V)
    (q : String) (rn : Option String) (tk : ℕ) (dt : Option String)
    (h : env.groq_key = none ∨ env.groq_key = some "" ∨
      env.gen (hydePrompt q) = none) :
    search env st q rn tk dt true = search env st q rn tk dt false := by
  have hfall : generate_hyde_document env q = q := by
    rcases h with h | h | h
    · simp [generate_hyde_document, h]
    · simp [generate_hyde_document, h]
      exact fun hc => absurd hc (by decide)
    · rcases hk : env.groq_key with _ | k
      · simp [generate_hyde_document, hk]
      · by_cases hke : k.isEmpty <;> simp [generate_hyde_document, hk, hke, h]
  simp [search, search_run, hfall]

/-- Structure of `search_with_context`: either it is exactly the section
search, or it is the section search plus one appended parent result. -/
theorem search_with_context_structure {V : Type} (env : Env V) (st : Store V)
    (q repo : String) (tk : ℕ) :
    search_with_context env st q repo tk = search env st q (some repo) tk none true ∨
    ∃ p, search_with_context env st q repo tk =
        search env st q (some repo) tk none true ++ [p] ∧
      p.is_parent = true ∧ p.type = PVal.str "readme_full" ∧ p.score = mkRat 1 2 ∧
      ∃ r, r ∈ search env st q (some repo) tk none true ∧
        r.type = PVal.str "readme" := by
  rw [search_with_context]
  by_cases hany : (search env st q (some repo) tk none true).any
      (fun r => decide (r.type = PVal.str "readme")) = true
  · rw [if_pos hany]
    rcases hfr : search env st "full readme overview" (some repo) 1
        (some "readme_full") false with _ | ⟨fr, rest⟩
    · exact Or.inl rfl
    · have hreadme : ∃ r, r ∈ search env st q (some repo) tk none true ∧
          r.type = PVal.str "readme" := by
        rw [List.any_eq_true] at hany
        obtain ⟨r, hr1, hr2⟩ := hany
        exact ⟨r, hr1, by simpa using hr2⟩
      have hfrmem : fr ∈ search env st "full readme overview" (some repo) 1
          (some "readme_full") false := by
        rw [hfr]; exact List.mem_cons_self _ _
      have htype := search_doc_type hfrmem (by decide)
      exact Or.inr ⟨_, rfl, rfl, by simpa using htype, rfl, hreadme⟩
  · rw [if_neg hany]
    exact Or.inl rfl

/-- C5: `search_with_context` is strictly additive over the section search —
the section results are returned unchanged and in order, with at most one
`readme_full` result appended at the end, flagged `is_parent`, and only when
some section result has type `readme`. -/
theorem search_with_context_additive {V : Type} (env : Env V) (st : Store V)
    (q repo : String) (tk : ℕ) :
    search_with_context env st q repo tk = search env st q (some repo) tk none true ∨
    ∃ p, search_with_context env st q repo tk =
        search env st q (some repo) tk none true ++ [p] ∧
      p.is_parent = true ∧ p.type = PVal.str "readme_full" ∧
      ∃ r, r ∈ search env st q (some repo) tk none true ∧
        r.type = PVal.str "readme" := by
  rcases search_with_context_structure env st q repo tk with h | ⟨p, h1, h2, h3, -, h5⟩
  · exact Or.inl h
  · exact Or.inr ⟨p, h1, h2, h3, h5⟩

/-- C7: the `metadata` of every search result is exactly the stored payload
minus the three reserved keys, values included. -/
theorem search_metadata_passthrough {V : Type} {env : Env V} {st : Store V}
    {q : String} {rn : Option String} {tk : ℕ} {dt : Option String} {uh : Bool}
    {r : SearchResult} (h : r ∈ search env st q rn tk dt uh) :
    ∃ p, p ∈ st ∧ ∀ k v, ((k, v) ∈ r.metadata ↔
      ((k, v) ∈ p.payload ∧ k ≠ "content" ∧ k ≠ "doc_type" ∧ k ≠ "repo_name")) := by
  obtain ⟨p, hmem, -, s, hr⟩ := search_result_source h
  refine ⟨p, hmem, fun k v => ?_⟩
  rw [hr]
  show (k, v) ∈ (formatHit (p, s)).metadata ↔ _
  rw [formatHit]
  simp [List.mem_filter]

/-- C1 (amended): the parent document appended by `search_with_context`
carries the fixed score 1/2, so it scores strictly below every readme-type
section result whose similarity exceeds 1/2. -/
theorem search_with_context_parent_score {V : Type} (env : Env V) (st : Store V)
    (q repo : String) (tk : ℕ) (p : SearchResult)
    (hp : p ∈ search_with_context env st q repo tk) (hpar : p.is_parent = true) :
    p.score = mkRat 1 2 ∧ ∀ r ∈ search env st q (some repo) tk none true,
      r.type = PVal.str "readme" → mkRat 1 2 < r.score → p.score < r.score := by
  have hscore : p.score = mkRat 1 2 := by
    rcases search_with_context_structure env st q repo tk with
      hca | ⟨p2, hca, -, -, hsc2, -⟩
    · rw [hca] at hp
      rw [search_is_parent_false hp] at hpar
      cases hpar
    · rw [hca, List.mem_append] at hp
      rcases hp with hp | hp
      · rw [search_is_parent_false hp] at hpar
        cases hpar
      · rw [List.mem_singleton] at hp
        rw [hp, hsc2]
  exact ⟨hscore, fun r _ _ hlt => hscore ▸ hlt⟩

/-- C2 (amended): a search scoped to a non-empty `repo_name` only returns
results built from stored points whose `repo_name` payload equals that
argument, and — provided the metadata of the indexed documents never uses the key
`repo_name` — indexing a batch under a different repository leaves the search
results unchanged. -/
theorem search_repo_scoping {V : Type} (env : Env V) (st : Store V)
    (docs : List Doc) (q R R' : String) (tk : ℕ) (dt : Option String) (uh : Bool)
    (hmeta : ∀ d ∈ docs, ∀ kv ∈ d.metadata, kv.1 ≠ "repo_name")
    (hR' : R' ≠ "") (hne : R ≠ R') :
    (∀ r ∈ search env st q (some R') tk dt uh,
      ∃ p, p ∈ st ∧ payloadGet p.payload "repo_name" = some (PVal.str R') ∧
        ∃ s, r = formatHit (p, s)) ∧
    search env (index_documents env st R docs).1 q (some R') tk dt uh =
      search env st q (some R') tk dt uh := by
  have hR'empty : R'.isEmpty = false := by
    rw [Bool.eq_false_iff]
    exact fun h => hR' ((String.isEmpty_iff R').mp h)
  have hcmem : ("repo_name", R') ∈ filterConds (some R') dt := by
    rw [filterConds.eq_def]
    refine List.mem_append_left _ ?_
    simp [hR'empty]
  constructor
  · intro r hr
    obtain ⟨p, hmem, hm, s, hrfmt⟩ := search_result_source hr
    exact ⟨p, hmem, matchesConds_elim hm hcmem, s, hrfmt⟩
  · by_cases hd : docs.isEmpty = true
    · rw [index_documents, if_pos hd]
    · rw [index_documents, if_neg hd]
      have hfilter :
          ((st ++ docs.map fun d => mkPoint env R d).filter
            (fun p => matchesConds (filterConds (some R') dt) p.payload)) =
          st.filter (fun p => matchesConds (filterConds (some R') dt) p.payload) := by
        rw [List.filter_append]
        have hnil : ((docs.map fun d => mkPoint env R d).filter
            (fun p => matchesConds (filterConds (some R') dt) p.payload)) = [] := by
          rw [List.filter_eq_nil_iff]
          intro p hp
          rw [List.mem_map] at hp
          obtain ⟨d, hd2, rfl⟩ := hp
          rw [matchesConds_new_point_false (hmeta d hd2) hR'empty hne]
          simp
        rw [hnil, List.append_nil]
      simp only [search, search_run, qdrantSearch]
      rw [hfilter]

/-- C4 (amended): re-indexing a repository is delete-then-insert — after
indexing `R` with `[a, b]` and re-indexing with `[c]`, the points stored
under `R` are exactly the one built from `c` (provided the metadata of `c` does
not use the key `repo_name`). -/
theorem index_repository_reindex {V : Type} (env : Env V) (st : Store V)
    (R : String) (a b c : Doc) (st1 st2 : Store V) (n1 n2 : ℕ)
    (hc : ∀ kv ∈ c.metadata, kv.1 ≠ "repo_name")
    (_h1 : index_repository env st R [a, b] = some (st1, n1))
    (h2 : index_repository env st1 R [c] = some (st2, n2)) :
    st2.filter
      (fun p => decide (payloadGet p.payload "repo_name" = some (PVal.str R))) =
      [mkPoint env R c] ∧ n2 = 1 := by
  rw [index_repository] at h2
  simp [index_documents] at h2
  obtain ⟨hst2, hn2⟩ := h2
  constructor
  · rw [← hst2, List.filter_append, filter_repo_delete_nil]
    have : decide (payloadGet (mkPoint env R c).payload "repo_name" =
        some (PVal.str R)) = true := by
      rw [mkPoint]
      simp [payloadGet_mkPayload_repo hc]
    simp [this]
  · omega

/-- The collection loop of `get_indexed_repos` adds nothing new on a block of
points all indexed under "A" once "A" has been collected. -/
theorem reposStep_replicate (n : ℕ) :
    (List.replicate n pA).foldl reposStep [PVal.str "A"] = [PVal.str "A"] := by
  induction n with
  | zero => rfl
  | succ m ih =>
    rw [List.replicate_succ, List.foldl_cons]
    have hstep : reposStep [PVal.str "A"] pA = [PVal.str "A"] := by decide
    rw [hstep, ih]

/-- C9: `get_indexed_repos` scans only the first 1000 stored points and never
paginates, so on a store of 1001 points whose last point is the only one of
repository "B", the stored repository "B" is missing from the returned
list — against the documentation of the function itself ("all indexed repository
names"). -/
theorem get_indexed_repos_misses_repo :
    get_indexed_repos bigStore = [PVal.str "A"] ∧
    pB ∈ bigStore ∧
    payloadGet pB.payload "repo_name" = some (PVal.str "B") ∧
    PVal.str "B" ∉ get_indexed_repos bigStore := by
  have htake : bigStore.take 1000 = List.replicate 1000 pA := by
    rw [bigStore,
      List.take_append_of_le_length (by rw [List.length_replicate]),
      List.take_replicate, Nat.min_self]
  have h1 : get_indexed_repos bigStore = [PVal.str "A"] := by
    rw [get_indexed_repos, htake,
      show (1000 : ℕ) = 999 + 1 from rfl, List.replicate_succ, List.foldl_cons]
    have hstep0 : reposStep ([] : List PVal) pA = [PVal.str "A"] := by decide
    rw [hstep0]
    exact reposStep_replicate 999
  refine ⟨h1, ?_, rfl, ?_⟩
  · exact List.mem_append_right _ (List.mem_singleton_self pB)
  · rw [h1]; decide

/-- C1 counterexample: with a readme section scoring 3/10, the appended
fixed parent score 1/2 is NOT strictly below the minimum readme-type
section score. -/
theorem parent_score_not_below_min_cex :
    search_with_context cEnvLow cStore "how do I install this please" "x/y" 3 =
      [{ content := PVal.str "FullReadme", type := PVal.str "readme_full",
         score := mkRat 9 10, metadata := [], is_parent := false },
       rInstall, pParent] ∧
    rInstall.type = PVal.str "readme" ∧ pParent.is_parent = true ∧
    ¬(pParent.score < rInstall.score) := by
  refine ⟨by decide, rfl, rfl, by decide⟩

/-- C2 counterexample: a document indexed under repository "A" whose metadata
overrides `repo_name` to "B" is returned by a search scoped to "B". -/
theorem search_cross_repo_leak_cex :
    leakStore = (index_documents cEnvPlain [] "A" [dOvr]).1 ∧
    search cEnvPlain leakStore "q" (some "B") 5 none false =
      [{ content := PVal.str "c1", type := PVal.str "readme",
         score := mkRat 0 1, metadata := [], is_parent := false }] ∧
    ("A" : String) ≠ "B" :=
  ⟨rfl, by decide, by decide⟩

/-- C4 counterexample: re-indexing "R" with a document whose metadata
overrides `repo_name` leaves nothing retrievable under "R" — not the
re-indexed batch. -/
theorem reindex_override_cex :
    index_repository cEnvPlain [] "R" [dSec, dFull] = some (st1C4, 2) ∧
    index_repository cEnvPlain st1C4 "R" [dOvr] = some (st2C4, 1) ∧
    st2C4.filter
      (fun p => decide (payloadGet p.payload "repo_name" = some (PVal.str "R"))) =
      [] ∧
    ([] : List (Point String)) ≠ [mkPoint cEnvPlain "R" dOvr] :=
  ⟨by decide, by decide, by decide, by decide⟩

/-! ## Witnesses -/

/-- Witness for `hyde_failure_fallback`: a configured key whose generator
fails, on a query longer than 20 characters. -/
theorem hyde_failure_fallback_witness :
    (cEnvPlain.groq_key = none ∨ cEnvPlain.groq_key = some "" ∨
      cEnvPlain.gen (hydePrompt "how do I install this please") = none) ∧
    search cEnvPlain cStore "how do I install this please" (some "x/y") 3 none
        true =
      search cEnvPlain cStore "how do I install this please" (some "x/y") 3 none
        false :=
  ⟨Or.inr (Or.inr rfl),
   hyde_failure_fallback cEnvPlain cStore "how do I install this please"
     (some "x/y") 3 none (Or.inr (Or.inr rfl))⟩

/-- Witness for `search_metadata_passthrough` at a concrete result. -/
theorem search_metadata_passthrough_witness :
    rInstall ∈ search cEnvLow cStore "q" (some "x/y") 2 none false ∧
    ∃ p, p ∈ cStore ∧ ∀ k v, ((k, v) ∈ rInstall.metadata ↔
      ((k, v) ∈ p.payload ∧ k ≠ "content" ∧ k ≠ "doc_type" ∧ k ≠ "repo_name")) :=
  ⟨by decide,
   @search_metadata_passthrough String cEnvLow cStore "q" (some "x/y") 2 none
     false rInstall (by decide)⟩

/-- Witness for `search_with_context_parent_score`: every readme section
scores above 1/2, and the appended parent scores strictly below each. -/
theorem search_with_context_parent_score_witness :
    pParent ∈
      search_with_context cEnvHigh cStore "how do I install this please" "x/y" 3 ∧
    pParent.is_parent = true ∧
    (pParent.score = mkRat 1 2 ∧
      ∀ r ∈ search cEnvHigh cStore "how do I install this please" (some "x/y") 3
          none true,
        r.type = PVal.str "readme" → mkRat 1 2 < r.score →
          pParent.score < r.score) :=
  ⟨by decide, rfl,
   search_with_context_parent_score cEnvHigh cStore "how do I install this please"
     "x/y" 3 pParent (by decide) rfl⟩

/-- Witness for `search_repo_scoping`: indexing a clean batch under "other"
is invisible to a search scoped to "x/y". -/
theorem search_repo_scoping_witness :
    (∀ d ∈ [dSec], ∀ kv ∈ d.metadata, kv.1 ≠ "repo_name") ∧
    ("x/y" : String) ≠ "" ∧ ("other" : String) ≠ "x/y" ∧
    ((∀ r ∈ search cEnvPlain cStore "q" (some "x/y") 2 none false,
        ∃ p, p ∈ cStore ∧ payloadGet p.payload "repo_name" = some (PVal.str "x/y") ∧
          ∃ s, r = formatHit (p, s)) ∧
      search cEnvPlain (index_documents cEnvPlain cStore "other" [dSec]).1 "q"
          (some "x/y") 2 none false =
        search cEnvPlain cStore "q" (some "x/y") 2 none false) :=
  ⟨by decide, by decide, by decide,
   search_repo_scoping cEnvPlain cStore [dSec] "q" "other" "x/y" 2 none false
     (by decide) (by decide) (by decide)⟩

/-- Witness for `index_repository_reindex`: a clean re-index of "R" leaves
exactly the new document retrievable under "R". -/
theorem index_repository_reindex_witness :
    (∀ kv ∈ dNew.metadata, kv.1 ≠ "repo_name") ∧
    index_repository cEnvPlain [] "R" [dSec, dFull] = some (st1C4, 2) ∧
    index_repository cEnvPlain st1C4 "R" [dNew] = some (st2W, 1) ∧
    (st2W.filter
      (fun p => decide (payloadGet p.payload "repo_name" = some (PVal.str "R"))) =
      [mkPoint cEnvPlain "R" dNew] ∧ (1 : ℕ) = 1) :=
  ⟨by decide, by decide, by decide,
   index_repository_reindex cEnvPlain [] "R" dSec dFull dNew st1C4 st2W 2 1
     (by decide) (by decide) (by decide)⟩

end OpStream
